import Mathlib

/-!
Shallow embedding of the bible.rs Reference Parsing & Retrieval Engine.

Sources embedded here:
- `db/src/models/reference.rs` — the `Reference` model, its `Display`
  implementation and the `FromStr` citation parser (a five-state machine).
- `db/src/sword_drill.rs` — book resolution, verse retrieval and full-text
  search (the diesel/SQL queries are translated to list operations:
  `filter`, a stable sort for `order_by`, `take` for `limit`).
- `web/src/controllers/mod.rs` — `VersesPayload::new` (post-retrieval
  narrowing of the requested verse range).
- `web/src/controllers/api.rs` — the JSON search endpoint and its
  `JsonError::error_response` mapping.

Strings are modelled as `List Char`.  Rust's `char` classification methods
(`is_alphabetic`, `is_whitespace`, `is_numeric`) and `to_lowercase` cover all
of Unicode; the model implements their ASCII fragments (every concrete input
exercised by the development is ASCII, and each theorem proved here is
insensitive to the difference).  Machine integers (`i32`) are modelled as
`Int` with the `i32` range enforced exactly where the code enforces it
(`str::parse::<i32>` fails on overflow).  Rust `&str` byte indexing/slicing,
which panics when out of bounds or off a UTF-8 character boundary, is
modelled explicitly (`bytePrefix?` returning `none` models the panic).
-/

deriving instance DecidableEq for Except

namespace Biblers

/-- ASCII fragment of Rust `char::is_alphabetic` (`A`-`Z`, `a`-`z`). -/
def rsIsAlphabetic (c : Char) : Bool :=
  (65 ≤ c.toNat && c.toNat ≤ 90) || (97 ≤ c.toNat && c.toNat ≤ 122)

/-- ASCII fragment of Rust `char::is_whitespace` (space, tab, LF, CR). -/
def rsIsWhitespace (c : Char) : Bool :=
  c.toNat = 32 || c.toNat = 9 || c.toNat = 10 || c.toNat = 13

/-- ASCII fragment of Rust `char::is_numeric` (`0`-`9`). -/
def rsIsNumeric (c : Char) : Bool :=
  48 ≤ c.toNat && c.toNat ≤ 57

/-- ASCII fragment of Rust `char::to_lowercase`. -/
def rsToLower (c : Char) : Char :=
  if 65 ≤ c.toNat && c.toNat ≤ 90 then Char.ofNat (c.toNat + 32) else c

/-- Rust `str::to_lowercase`, character by character (ASCII fragment). -/
def lowerStr (s : List Char) : List Char := s.map rsToLower

/-- Rust `str::trim`: drop whitespace from both ends. -/
def trim (s : List Char) : List Char :=
  ((s.dropWhile rsIsWhitespace).reverse.dropWhile rsIsWhitespace).reverse

/-- Rust `str::len`: the UTF-8 byte length of the string. -/
def byteLen (s : List Char) : Nat := (s.map Char.utf8Size).sum

/-- Rust byte slicing `&s[..n]`: the prefix of `s` occupying exactly `n`
bytes, or `none` when `n` is past the end of the string or not on a
character boundary — the cases in which Rust panics. -/
def bytePrefix? : List Char → Nat → Option (List Char)
  | _, 0 => some []
  | [], _ + 1 => none
  | c :: cs, n + 1 =>
    if c.utf8Size ≤ n + 1 then (bytePrefix? cs (n + 1 - c.utf8Size)).map (c :: ·)
    else none

/-- The decimal digit character for `d` (meaningful for `d < 10`). -/
def digitChar (d : Nat) : Char := Char.ofNat (48 + d)

/-- Fuel-driven worker for `natToChars`; `fuel > n` always suffices. -/
def natToCharsGo : Nat → Nat → List Char
  | 0, _ => []
  | fuel + 1, n =>
    if n < 10 then [digitChar n] else natToCharsGo fuel (n / 10) ++ [digitChar (n % 10)]

/-- Decimal rendering of a natural number (no sign), as `Display` for the
nonnegative case of `i32` produces it. -/
def natToChars (n : Nat) : List Char := natToCharsGo (n + 1) n

theorem natToCharsGo_congr :
    ∀ (f₁ f₂ n : Nat), n < f₁ → n < f₂ → natToCharsGo f₁ n = natToCharsGo f₂ n := by
  intro f₁
  induction f₁ with
  | zero => intro f₂ n h₁ _; omega
  | succ g ih =>
    intro f₂ n h₁ h₂
    obtain ⟨h, rfl⟩ : ∃ h, f₂ = h + 1 := ⟨f₂ - 1, by omega⟩
    by_cases hn : n < 10
    · simp [natToCharsGo, hn]
    · have hd : n / 10 < n := Nat.div_lt_self (by omega) (by omega)
      simp only [natToCharsGo, if_neg hn]
      rw [ih h (n / 10) (by omega) (by omega)]

/-- The defining recurrence of `natToChars`. -/
theorem natToChars_eq (n : Nat) :
    natToChars n = if n < 10 then [digitChar n] else natToChars (n / 10) ++ [digitChar (n % 10)] := by
  show natToCharsGo (n + 1) n = _
  by_cases hn : n < 10
  · simp [natToCharsGo, hn]
  · have hd : n / 10 < n := Nat.div_lt_self (by omega) (by omega)
    simp only [natToCharsGo, if_neg hn]
    rw [natToCharsGo_congr n (n / 10 + 1) (n / 10) (by omega) (by omega)]
    rfl

/-- Rust `Display` for `i32`: minus sign then decimal digits. -/
def i32ToChars (n : Int) : List Char :=
  if n < 0 then '-' :: natToChars (-n).toNat else natToChars n.toNat

/-- Numeric value of a list of decimal digit characters. -/
def digitsVal (cs : List Char) : Nat :=
  cs.foldl (fun a c => a * 10 + (c.toNat - 48)) 0

/-- Split an optional leading sign, as Rust integer parsing does:
returns (negative?, remaining characters). -/
def splitSign (cs : List Char) : Bool × List Char :=
  match cs with
  | [] => (false, [])
  | c :: rest =>
    if c = '-' then (true, rest)
    else if c = '+' then (false, rest)
    else (false, cs)

/-- Rust `str::parse::<i32>`: optional sign, then one or more ASCII decimal
digits, value within the `i32` range; anything else fails (`none`). -/
def parseI32 (cs : List Char) : Option Int :=
  let p := splitSign cs
  if p.2.isEmpty then none
  else if p.2.all rsIsNumeric then
    let v : Int := if p.1 then -(digitsVal p.2 : Int) else (digitsVal p.2 : Int)
    if -(2 ^ 31) ≤ v ∧ v < 2 ^ 31 then some v else none
  else none

/-- `DbError` (db crate), with the payloads the `sword_drill` code attaches. -/
inductive DbError where
  | bookNotFound (book : List Char)
  | invalidReference (reference : List Char)
  | other (cause : List Char)
deriving DecidableEq, Repr

/-- `Reference` (db crate): book token, chapter, optional inclusive verse
range.  The range is modelled as the pair (start, end). -/
structure Reference where
  book : List Char
  chapter : Int
  verses : Option (Int × Int)
deriving DecidableEq, Repr

/-- The five parser states of `Reference::from_str`. -/
inductive PState where
  | init
  | book
  | chapter
  | verseFrom
  | verseTo
deriving DecidableEq, Repr

/-- The mutable locals of `Reference::from_str`: current state plus the four
accumulator buffers. -/
structure MState where
  st : PState
  bookPart : List Char
  chapterPart : List Char
  verseFromPart : List Char
  verseToPart : List Char
deriving DecidableEq, Repr

def initState : MState := ⟨.init, [], [], [], []⟩

/-- One step of the `for c in s.chars()` loop of `Reference::from_str`. -/
def step (m : MState) (c : Char) : MState :=
  match m.st with
  | .init => { m with st := .book, bookPart := m.bookPart ++ [c] }
  | .book =>
    if rsIsNumeric c then { m with st := .chapter, chapterPart := m.chapterPart ++ [c] }
    else if rsIsAlphabetic c || rsIsWhitespace c then { m with bookPart := m.bookPart ++ [c] }
    else m
  | .chapter =>
    if rsIsNumeric c then { m with chapterPart := m.chapterPart ++ [c] }
    else if c = ':' || c = '.' then { m with st := .verseFrom }
    else m
  | .verseFrom =>
    if c = '-' then { m with st := .verseTo }
    else if rsIsNumeric c then { m with verseFromPart := m.verseFromPart ++ [c] }
    else m
  | .verseTo =>
    if rsIsNumeric c then { m with verseToPart := m.verseToPart ++ [c] }
    else m

/-- The whole character loop of `Reference::from_str`. -/
def runMachine (s : List Char) : MState := s.foldl step initState

def MAX_REFERENCE_SIZE : Nat := 100

/-- Outcome of `Reference::from_str`: success, an `Err`, or a panic. -/
inductive ParseResult where
  | panic
  | error (e : DbError)
  | ok (r : Reference)
deriving DecidableEq, Repr

/-- `Reference::from_str`.  The guard clause slices `s[..MAX_REFERENCE_SIZE]`
to build the error payload; when that slice is out of bounds (notably for the
empty string) Rust panics, modelled by `ParseResult.panic`. -/
def fromStr (s : List Char) : ParseResult :=
  if byteLen s > MAX_REFERENCE_SIZE || s.isEmpty then
    match bytePrefix? s MAX_REFERENCE_SIZE with
    | none => .panic
    | some p => .error (.invalidReference p)
  else
    let m := runMachine s
    match parseI32 m.chapterPart with
    | none => .error (.invalidReference s)
    | some chapter =>
      if m.verseFromPart.isEmpty then
        .ok { book := trim m.bookPart, chapter := chapter, verses := none }
      else
        match parseI32 m.verseFromPart with
        | none => .error (.invalidReference m.verseFromPart)
        | some vfrom =>
          if m.verseToPart.isEmpty then
            match parseI32 m.verseFromPart with
            | none => .error (.invalidReference m.verseFromPart)
            | some vfrom2 =>
              .ok { book := trim m.bookPart, chapter := chapter, verses := some (vfrom, vfrom2) }
          else
            match parseI32 m.verseToPart with
            | none => .error (.invalidReference m.verseToPart)
            | some vto =>
              .ok { book := trim m.bookPart, chapter := chapter, verses := some (vfrom, vto) }

/-- `impl fmt::Display for Reference`. -/
def fmtReference (r : Reference) : List Char :=
  match r.verses with
  | none => r.book ++ ' ' :: i32ToChars r.chapter
  | some (a, b) =>
    if a = b then r.book ++ ' ' :: i32ToChars r.chapter ++ ':' :: i32ToChars a
    else r.book ++ ' ' :: i32ToChars r.chapter ++ ':' :: i32ToChars a ++ '-' :: i32ToChars b

/-- A reference in canonical rendering: non-empty book whose first and last
characters are letters or digits and whose inner characters are letters or
single spaces, chapter at least 1 (and within `i32`), verse range (when
present) `1 <= start <= end` (within `i32`), and a rendering within the
parser's 100-byte input bound. -/
def IsCanonical (r : Reference) : Prop :=
  r.book ≠ [] ∧
  (∀ x ∈ r.book.head?, rsIsAlphabetic x = true ∨ rsIsNumeric x = true) ∧
  (∀ x ∈ r.book.drop 1, rsIsAlphabetic x = true ∨ x = ' ') ∧
  (∀ x ∈ r.book.getLast?, rsIsAlphabetic x = true ∨ rsIsNumeric x = true) ∧
  (1 ≤ r.chapter ∧ r.chapter < 2 ^ 31) ∧
  (match r.verses with
    | none => True
    | some (a, b) => 1 ≤ a ∧ a ≤ b ∧ b < 2 ^ 31) ∧
  byteLen (fmtReference r) ≤ MAX_REFERENCE_SIZE

/-! ## Storage model (db crate)

The diesel/SQLite queries of `sword_drill.rs` are declarative; they are
translated to list operations over an explicit database snapshot: `filter`
for `WHERE`, a stable merge sort for `ORDER BY`, `take` for `LIMIT`, and
list products for `INNER JOIN`.  Row order in the snapshot lists stands for
the storage engine's scan order. -/

inductive Testament where
  | old
  | new
deriving DecidableEq, Repr

/-- `Book` model (db crate). -/
structure Book where
  id : Int
  name : List Char
  chapter_count : Int
  testament : Testament
deriving DecidableEq, Repr

/-- `BookAbbreviation` model (db crate). -/
structure BookAbbreviation where
  id : Int
  book_id : Int
  abbreviation : List Char
deriving DecidableEq, Repr

/-- `Verse` model (db crate). -/
structure Verse where
  id : Int
  book : Int
  chapter : Int
  verse : Int
  words : List Char
deriving DecidableEq, Repr

/-- `VerseFTS` model (db crate).  The `rank` column is an `f32` produced by
SQLite FTS5; only its ordering is ever consumed (`ORDER BY rank`), so it is
modelled by an integer-valued ordered rank.  `words` carries the output of
the storage-side `highlight` function. -/
structure VerseFTS where
  book : Int
  chapter : Int
  verse : Int
  words : List Char
  rank : Int
deriving DecidableEq, Repr

/-- `VerseFormat` (db crate). -/
inductive VerseFormat where
  | plainText
  | html
deriving DecidableEq, Repr

/-- A snapshot of the SQLite database: the tables `sword_drill.rs` reads.
`verses` and `versesHtml` are the parallel plain-text/HTML verse tables. -/
structure Db where
  books : List Book
  bookAbbreviations : List BookAbbreviation
  verses : List Verse
  versesHtml : List Verse
  versesFts : List VerseFTS
deriving Repr

/-- The verse table selected by a `VerseFormat`. -/
def Db.table (db : Db) : VerseFormat → List Verse
  | .plainText => db.verses
  | .html => db.versesHtml

/-- `SwordDrill::book`: inner-join `books` with `book_abbreviations` on
`book_abbreviations.book_id = books.id`, filter on the lowercased name,
take the first row (`BookNotFound` when there is none), and pair the book
with its 1-based chapter list `(1..=book.chapter_count)`. -/
def bookQuery (db : Db) (bookName : List Char) : Except DbError (Book × List Int) :=
  let rows := db.books.flatMap fun b =>
    (db.bookAbbreviations.filter fun ba =>
      ba.book_id == b.id && ba.abbreviation == lowerStr bookName).map fun ba => (b, ba)
  match rows.head? with
  | none => .error (.bookNotFound bookName)
  | some (book, _) =>
    .ok (book, (List.range book.chapter_count.toNat).map fun i => (i : Int) + 1)

/-- The `ORDER BY (chapter ASC, verse ASC)` key of `SwordDrill::verses`. -/
def verseLe (v w : Verse) : Bool :=
  v.chapter < w.chapter || (v.chapter == w.chapter && v.verse ≤ w.verse)

/-- Does `v.verse` satisfy the optional `verse BETWEEN start AND end` filter? -/
def inVerseRange (verses : Option (Int × Int)) (v : Verse) : Bool :=
  match verses with
  | none => true
  | some (a, b) => a ≤ v.verse && v.verse ≤ b

/-- `SwordDrill::verses`: resolve the book from the lowercased book token,
then filter the format's verse table by `book.id`, `reference.chapter` and
the optional verse range, ordered by `(chapter ASC, verse ASC)`. -/
def versesQuery (db : Db) (reference : Reference) (format : VerseFormat) :
    Except DbError (Book × List Verse) :=
  match bookQuery db (lowerStr reference.book) with
  | .error e => .error e
  | .ok (book, _) =>
    let rows := (db.table format).filter fun v =>
      v.book == book.id && v.chapter == reference.chapter && inVerseRange reference.verses v
    .ok (book, rows.mergeSort verseLe)

/-- `SEARCH_RESULT_LIMIT` (db crate). -/
def SEARCH_RESULT_LIMIT : Nat := 15

/-- `query.contains('"')`. -/
def hadQuote (q : List Char) : Bool := q.contains '"'

/-- A character the search sanitizer keeps: the complement of the regex
`[^a-zA-Z ]`, i.e. ASCII letters and the space character. -/
def keepChar (c : Char) : Bool :=
  (65 ≤ c.toNat && c.toNat ≤ 90) || (97 ≤ c.toNat && c.toNat ≤ 122) || c.toNat = 32

/-- `ALPHA_NUM.replace_all(query, "")`: replacing every maximal run of
non-kept characters by the empty string removes exactly the non-kept
characters, i.e. filters on `keepChar`. -/
def cleanQuery (q : List Char) : List Char := q.filter keepChar

/-- The full-text-search expression `SwordDrill::search` sends to storage:
`none` when the sanitizer bails out early (no storage query is issued),
otherwise the cleaned text — re-wrapped in double quotes when the original
contained one — with the trailing `*` appended by `format!("{}*", query)`. -/
def ftsExpression (q : List Char) : Option (List Char) :=
  let cleaned := cleanQuery q
  if (trim cleaned).isEmpty then none
  else
    let q2 := if hadQuote q then '"' :: (cleaned ++ ['"']) else cleaned
    some (q2 ++ ['*'])

/-- The `ORDER BY rank` key of `SwordDrill::search`. -/
def rankLe (p q : VerseFTS × Book) : Bool := p.1.rank ≤ q.1.rank

/-- `SwordDrill::search`.  The FTS5 `MATCH` semantics live inside SQLite,
outside this repository, so the matcher `m` is a parameter: `m expr row`
decides whether a `verses_fts` row matches the expression.  The query
inner-joins `books` on `books.id = verses_fts.book`, orders by `rank`
ascending and limits to `SEARCH_RESULT_LIMIT`. -/
def searchQuery (m : List Char → VerseFTS → Bool) (db : Db) (q : List Char) :
    Except DbError (List (VerseFTS × Book)) :=
  match ftsExpression q with
  | none => .ok []
  | some expr =>
    let rows := (db.versesFts.filter (m expr)).flatMap fun v =>
      (db.books.filter fun b => b.id == v.book).map fun b => (v, b)
    .ok ((rows.mergeSort rankLe).take SEARCH_RESULT_LIMIT)

/-! ## Web layer (web crate)

Only the parts the claims are about are modelled: link/URL construction
(`url_for`, `VersesLinks`) is HTTP plumbing declared out of scope by the
spec and does not touch the fields at issue. -/

/-- `VersesPayload` (web crate), without the `links` field (URL plumbing). -/
structure VersesPayload where
  book : Book
  reference : Reference
  reference_string : List Char
  verses : List Verse
deriving DecidableEq, Repr

/-- `VersesPayload::new`: rewrite `reference.book` to the canonical book
name, and narrow `reference.verses` — when a range was requested and at
least one verse came back, to the requested start through the verse number
of the last returned verse; otherwise to `None`. -/
def VersesPayload.new (bookVerses : Book × List Verse) (reference : Reference) :
    VersesPayload :=
  let book := bookVerses.1
  let verses := bookVerses.2
  let narrowed : Reference :=
    { book := book.name
      chapter := reference.chapter
      verses :=
        match reference.verses with
        | some vs =>
          match verses.getLast? with
          | none => none
          | some last => some (vs.1, last.verse)
        | none => none }
  { book := book
    reference := narrowed
    reference_string := fmtReference narrowed
    verses := verses }

/-- `Error` (web crate, `error.rs` / `api.rs`). -/
inductive WebError where
  | actix (cause : List Char)
  | bookNotFound (book : List Char)
  | db
  | invalidReference (reference : List Char)
  | template
deriving DecidableEq, Repr

/-- `impl From<BlockingError<DbError>> for JsonError` (api.rs), `Error` arm:
`BookNotFound` is preserved, every other database error collapses to
`Error::Db`.  (The `Canceled` arm is runtime task cancellation, outside the
model.) -/
def fromBlockingDbError (e : DbError) : WebError :=
  match e with
  | .bookNotFound book => .bookNotFound book
  | _ => .db

/-- The HTTP responses the JSON search endpoint can produce. -/
inductive ApiResponse where
  | okJson (body : List (List Char))
  | internalServerError
  | badRequest (reference : List Char)
  | panicked
deriving DecidableEq, Repr

/-- `JsonError::error_response` (api.rs): `Actix`/`Db`/`Template` become
500s, `BookNotFound` becomes `200 OK` with `SearchResultPayload::empty()`,
`InvalidReference` becomes `400 Bad Request`. -/
def errorResponse (e : WebError) : ApiResponse :=
  match e with
  | .actix _ => .internalServerError
  | .db => .internalServerError
  | .template => .internalServerError
  | .bookNotFound _ => .okJson []
  | .invalidReference r => .badRequest r

/-- `SearchResultPayload::from_verses`: one match per verse, carrying the
verse text (the link part is URL plumbing). -/
def fromVerses (bookVerses : Book × List Verse) : List (List Char) :=
  bookVerses.2.map fun v => v.words

/-- `SearchResultPayload::from_verses_fts`. -/
def fromVersesFts (rows : List (VerseFTS × Book)) : List (List Char) :=
  rows.map fun r => r.1.words

/-- The JSON `search` endpoint (api.rs): parse the query as a `Reference`
first; on success retrieve verses, otherwise fall back to full-text search;
database errors pass through `From<BlockingError<DbError>>` and
`JsonError::error_response`.  A panic inside parsing propagates. -/
def searchEndpoint (m : List Char → VerseFTS → Bool) (db : Db) (q : List Char) :
    ApiResponse :=
  match fromStr q with
  | .panic => .panicked
  | .ok reference =>
    match versesQuery db reference .plainText with
    | .ok result => .okJson (fromVerses result)
    | .error e => errorResponse (fromBlockingDbError e)
  | .error _ =>
    match searchQuery m db q with
    | .ok results => .okJson (fromVersesFts results)
    | .error e => errorResponse (fromBlockingDbError e)

/-! ## Concrete data used by the witnesses -/

/-- A matcher that matches nothing (a possible FTS5 behaviour). -/
def matchNone : List Char → VerseFTS → Bool := fun _ _ => false

/-- A matcher that matches everything (a possible FTS5 behaviour). -/
def matchAll : List Char → VerseFTS → Bool := fun _ _ => true

/-- An empty database snapshot. -/
def emptyDb : Db := ⟨[], [], [], [], []⟩

/-- The book record for Psalms. -/
def psalmsBook : Book := ⟨19, "Psalms".toList, 150, .old⟩

/-- A 176-verse chapter: the rows of Psalm 119 (texts elided — the claims
under test do not depend on them). -/
def psalm119Verses : List Verse :=
  (List.range 176).map fun i => ⟨(i : Int) + 1, 19, 119, (i : Int) + 1, []⟩

/-- A database snapshot holding Psalm 119. -/
def psalmsDb : Db := ⟨[psalmsBook], [⟨1, 19, "psalms".toList⟩], psalm119Verses, [], []⟩

/-- The book record for John. -/
def johnBook : Book := ⟨43, "John".toList, 21, .new⟩

/-- A small database snapshot around John 1 (texts elided). -/
def johnDb : Db :=
  ⟨[johnBook], [⟨1, 43, "john".toList⟩],
    [⟨3, 43, 1, 3, []⟩, ⟨1, 43, 1, 1, []⟩, ⟨2, 43, 1, 2, []⟩, ⟨4, 43, 2, 1, []⟩],
    [], [⟨43, 1, 1, "In the beginning was the Word".toList, -3⟩,
         ⟨43, 1, 2, "The same was in the beginning with God".toList, -5⟩]⟩

/-! ## Helper lemmas -/

theorem rsIsNumeric_ne_dash {c : Char} (h : rsIsNumeric c = true) : ¬c = '-' := by
  intro hc
  subst hc
  exact absurd h (by decide)

theorem rsIsNumeric_ne_plus {c : Char} (h : rsIsNumeric c = true) : ¬c = '+' := by
  intro hc
  subst hc
  exact absurd h (by decide)

theorem splitSign_digits {c : Char} {cs : List Char} (h : rsIsNumeric c = true) :
    splitSign (c :: cs) = (false, c :: cs) := by
  simp [splitSign, rsIsNumeric_ne_dash h, rsIsNumeric_ne_plus h]

/-- A successful `i32` parse of a digits-only buffer yields a value in
`[0, 2^31)`. -/
theorem parseI32_digits_range {cs : List Char} {v : Int}
    (hall : cs.all rsIsNumeric = true) (h : parseI32 cs = some v) :
    0 ≤ v ∧ v < 2 ^ 31 := by
  cases cs with
  | nil => simp [parseI32, splitSign] at h
  | cons c cs' =>
    have hc : rsIsNumeric c = true := by
      have := List.all_eq_true.mp hall
      exact this c (by simp)
    rw [parseI32, splitSign_digits hc] at h
    simp only [List.isEmpty_cons, Bool.false_eq_true, if_false, hall, if_true] at h
    split at h
    · rename_i hrange
      cases h
      exact ⟨Int.ofNat_nonneg _, by omega⟩
    · cases h

theorem head?_dropWhile {α : Type} (p : α → Bool) (l : List α) :
    ∀ x ∈ (l.dropWhile p).head?, p x = false := by
  induction l with
  | nil => simp [List.dropWhile]
  | cons c cs ih =>
    rw [List.dropWhile_cons]
    by_cases hc : p c = true
    · simpa [hc] using ih
    · simp [hc]

theorem dropWhile_eq_self_of_head {α : Type} {p : α → Bool} {l : List α}
    (h : ∀ x ∈ l.head?, p x = false) : l.dropWhile p = l := by
  cases l with
  | nil => rfl
  | cons c cs =>
    rw [List.dropWhile_cons, if_neg]
    simp [h c]

/-- A list with no leading and no trailing whitespace is its own trim. -/
theorem trim_eq_self {l : List Char}
    (h1 : ∀ x ∈ l.head?, rsIsWhitespace x = false)
    (h2 : ∀ x ∈ l.getLast?, rsIsWhitespace x = false) : trim l = l := by
  unfold trim
  rw [dropWhile_eq_self_of_head h1]
  rw [dropWhile_eq_self_of_head (by simpa [List.head?_reverse] using h2)]
  exact l.reverse_reverse

theorem trim_head (l : List Char) : ∀ x ∈ (trim l).head?, rsIsWhitespace x = false := by
  intro x hx
  unfold trim at hx
  rw [List.head?_reverse] at hx
  rcases hB : (l.dropWhile rsIsWhitespace).reverse.dropWhile rsIsWhitespace with _ | ⟨b, bs⟩
  · rw [hB] at hx
    simp at hx
  · obtain ⟨t, ht⟩ :
        (l.dropWhile rsIsWhitespace).reverse.dropWhile rsIsWhitespace <:+
          (l.dropWhile rsIsWhitespace).reverse :=
      List.dropWhile_suffix rsIsWhitespace
    rw [hB] at hx ht
    have hx' : x ∈ (l.dropWhile rsIsWhitespace).reverse.getLast? := by
      rw [← ht, List.getLast?_append]
      simpa using hx
    rw [List.getLast?_eq_head?_reverse, List.reverse_reverse] at hx'
    exact head?_dropWhile rsIsWhitespace l x hx'

theorem trim_last (l : List Char) : ∀ x ∈ (trim l).getLast?, rsIsWhitespace x = false := by
  intro x hx
  unfold trim at hx
  rw [List.getLast?_eq_head?_reverse, List.reverse_reverse] at hx
  exact head?_dropWhile _ _ x hx

/-- `trim` is idempotent. -/
theorem trim_trim (l : List Char) : trim (trim l) = trim l :=
  trim_eq_self (trim_head l) (trim_last l)

/-- Appending a single trailing space and trimming recovers a list with no
leading and no trailing whitespace. -/
theorem trim_append_space {l : List Char} (hne : l ≠ [])
    (h1 : ∀ x ∈ l.head?, rsIsWhitespace x = false)
    (h2 : ∀ x ∈ l.getLast?, rsIsWhitespace x = false) :
    trim (l ++ [' ']) = l := by
  unfold trim
  have hfront : (l ++ [' ']).dropWhile rsIsWhitespace = l ++ [' '] := by
    apply dropWhile_eq_self_of_head
    cases l with
    | nil => exact absurd rfl hne
    | cons c cs => simpa using h1 c (by simp)
  rw [hfront, List.reverse_append]
  show (((' ' : Char) :: l.reverse).dropWhile rsIsWhitespace).reverse = l
  rw [List.dropWhile_cons, if_pos (by decide)]
  rw [dropWhile_eq_self_of_head (by simpa [List.head?_reverse] using h2)]
  exact l.reverse_reverse

theorem dropWhile_drop_one_subset {α : Type} (p : α → Bool) (l : List α) :
    (l.dropWhile p).drop 1 ⊆ l.drop 1 := by
  induction l with
  | nil => simp [List.dropWhile]
  | cons c cs ih =>
    rw [List.dropWhile_cons]
    by_cases hc : p c = true
    · rw [if_pos hc]
      intro x hx
      have hx' : x ∈ cs.drop 1 := ih hx
      simpa using List.drop_subset 1 cs hx'
    · rw [if_neg hc]
      exact fun x hx => hx

/-- Every element of `trim l` past the first is an element of `l` past the
first (trimming only removes characters from the two ends). -/
theorem trim_drop_one_subset (l : List Char) : (trim l).drop 1 ⊆ l.drop 1 := by
  have hsuf : (l.dropWhile rsIsWhitespace).reverse.dropWhile rsIsWhitespace <:+
      (l.dropWhile rsIsWhitespace).reverse := List.dropWhile_suffix _
  have hpre : trim l <+: l.dropWhile rsIsWhitespace := by
    unfold trim
    have h2 :
        ((l.dropWhile rsIsWhitespace).reverse.dropWhile rsIsWhitespace).reverse <+:
          (l.dropWhile rsIsWhitespace).reverse.reverse := by
      rw [List.reverse_prefix]
      exact hsuf
    simpa using h2
  intro x hx
  apply dropWhile_drop_one_subset rsIsWhitespace l
  obtain ⟨t, ht⟩ := hpre
  rcases htr : trim l with _ | ⟨b, bs⟩
  · rw [htr] at hx
    simp at hx
  · rw [htr] at ht hx
    rw [← ht]
    simp only [List.cons_append, List.drop_succ_cons, List.drop_zero] at hx ⊢
    exact List.subset_append_left bs t hx

/-! ## Parser state-machine invariants -/

/-- Invariant of the `from_str` loop: the chapter and verse buffers hold
decimal digits only, the book buffer is empty while still in `Init`, and
every character of the book buffer past the first is alphabetic or
whitespace. -/
def goodBuffers (m : MState) : Prop :=
  (∀ x ∈ m.chapterPart, rsIsNumeric x = true) ∧
  (∀ x ∈ m.verseFromPart, rsIsNumeric x = true) ∧
  (∀ x ∈ m.verseToPart, rsIsNumeric x = true) ∧
  (m.st = PState.init → m.bookPart = []) ∧
  ∀ x ∈ m.bookPart.drop 1, (rsIsAlphabetic x || rsIsWhitespace x) = true

theorem mem_drop_one_append {α : Type} {x c : α} {l : List α}
    (hx : x ∈ (l ++ [c]).drop 1) : x ∈ l.drop 1 ∨ x = c := by
  cases l with
  | nil => simp at hx
  | cons y ys => simpa using hx

theorem forall_mem_append_single {α : Type} {p : α → Prop} {l : List α} {c : α}
    (hl : ∀ x ∈ l, p x) (hc : p c) : ∀ x ∈ l ++ [c], p x := by
  intro x hx
  rcases List.mem_append.mp hx with h | h
  · exact hl x h
  · rw [List.mem_singleton.mp h]
    exact hc

theorem step_goodBuffers {m : MState} {c : Char} (h : goodBuffers m) :
    goodBuffers (step m c) := by
  obtain ⟨st, bp, cp, vf, vt⟩ := m
  obtain ⟨h1, h2, h3, h4, h5⟩ := h
  cases st with
  | init =>
    have hbp : bp = [] := h4 rfl
    subst hbp
    show goodBuffers (step ⟨PState.init, [], cp, vf, vt⟩ c)
    simp only [step]
    exact ⟨h1, h2, h3, by intro hh; simp at hh, by simp⟩
  | book =>
    show goodBuffers (step ⟨PState.book, bp, cp, vf, vt⟩ c)
    simp only [step]
    by_cases hn : rsIsNumeric c = true
    · rw [if_pos hn]
      exact ⟨forall_mem_append_single h1 hn, h2, h3, by intro hh; simp at hh, h5⟩
    · rw [if_neg hn]
      by_cases haw : (rsIsAlphabetic c || rsIsWhitespace c) = true
      · rw [if_pos haw]
        refine ⟨h1, h2, h3, by intro hh; simp at hh, ?_⟩
        intro x hx
        rcases mem_drop_one_append hx with hmem | rfl
        · exact h5 x hmem
        · exact haw
      · rw [if_neg haw]
        exact ⟨h1, h2, h3, by intro hh; simp at hh, h5⟩
  | chapter =>
    show goodBuffers (step ⟨PState.chapter, bp, cp, vf, vt⟩ c)
    simp only [step]
    by_cases hn : rsIsNumeric c = true
    · rw [if_pos hn]
      exact ⟨forall_mem_append_single h1 hn, h2, h3, by intro hh; simp at hh, h5⟩
    · rw [if_neg hn]
      split
      · exact ⟨h1, h2, h3, by intro hh; simp at hh, h5⟩
      · exact ⟨h1, h2, h3, by intro hh; simp at hh, h5⟩
  | verseFrom =>
    show goodBuffers (step ⟨PState.verseFrom, bp, cp, vf, vt⟩ c)
    simp only [step]
    split
    · exact ⟨h1, h2, h3, by intro hh; simp at hh, h5⟩
    · by_cases hn : rsIsNumeric c = true
      · rw [if_pos hn]
        exact ⟨h1, forall_mem_append_single h2 hn, h3, by intro hh; simp at hh, h5⟩
      · rw [if_neg hn]
        exact ⟨h1, h2, h3, by intro hh; simp at hh, h5⟩
  | verseTo =>
    show goodBuffers (step ⟨PState.verseTo, bp, cp, vf, vt⟩ c)
    simp only [step]
    by_cases hn : rsIsNumeric c = true
    · rw [if_pos hn]
      exact ⟨h1, h2, forall_mem_append_single h3 hn, by intro hh; simp at hh, h5⟩
    · rw [if_neg hn]
      exact ⟨h1, h2, h3, by intro hh; simp at hh, h5⟩

theorem foldl_goodBuffers (s : List Char) :
    ∀ m : MState, goodBuffers m → goodBuffers (List.foldl step m s) := by
  induction s with
  | nil => intro m h; exact h
  | cons c cs ih => intro m h; exact ih (step m c) (step_goodBuffers h)

theorem runMachine_good (s : List Char) : goodBuffers (runMachine s) :=
  foldl_goodBuffers s initState (by simp [goodBuffers, initState])

/-- Shape of a successful parse: the returned fields come from the final
machine state as `from_str`'s finalization assembles them. -/
theorem fromStr_ok_shape {s : List Char} {r : Reference} (h : fromStr s = .ok r) :
    r.book = trim (runMachine s).bookPart ∧
    parseI32 (runMachine s).chapterPart = some r.chapter ∧
    (r.verses = none ∨ ∃ a b, r.verses = some (a, b) ∧
      parseI32 (runMachine s).verseFromPart = some a ∧
      (parseI32 (runMachine s).verseFromPart = some b ∨
        parseI32 (runMachine s).verseToPart = some b)) := by
  simp only [fromStr] at h
  split at h
  · split at h <;> cases h
  · split at h
    · cases h
    · rename_i ch hch
      split at h
      · cases h
        exact ⟨rfl, hch, Or.inl rfl⟩
      · split at h
        · cases h
        · rename_i vf hvf
          split at h
          · split at h
            · cases h
            · rename_i vf2 hvf2
              cases h
              exact ⟨rfl, hch, Or.inr ⟨vf, vf2, rfl, hvf, Or.inl (hvf.trans hvf2)⟩⟩
          · split at h
            · cases h
            · rename_i vt hvt
              cases h
              exact ⟨rfl, hch, Or.inr ⟨vf, vt, rfl, hvf, Or.inr hvt⟩⟩

/-! ## Claim C1 -/

/-- C1 (corrected): every reference returned by a successful parse has a
trimmed book token (trimming it again changes nothing), a chapter in
`[0, 2^31)`, and, when a verse range is present, both endpoints in
`[0, 2^31)`.  The spec's stronger invariant — non-empty book,
`chapter >= 1`, `1 <= start <= end` — does not hold; see the
counterexample. -/
theorem c1_parsed_reference_invariant (s : List Char) (r : Reference)
    (h : fromStr s = ParseResult.ok r) :
    trim r.book = r.book ∧
    (0 ≤ r.chapter ∧ r.chapter < 2 ^ 31) ∧
    ∀ a b, r.verses = some (a, b) →
      (0 ≤ a ∧ a < 2 ^ 31) ∧ (0 ≤ b ∧ b < 2 ^ 31) := by
  obtain ⟨hbook, hch, hv⟩ := fromStr_ok_shape h
  obtain ⟨g1, g2, g3, _, _⟩ := runMachine_good s
  refine ⟨?_, ?_, ?_⟩
  · rw [hbook]
    exact trim_trim _
  · exact parseI32_digits_range (List.all_eq_true.mpr g1) hch
  · intro a b hab
    rcases hv with hnone | ⟨a', b', hab', hpa, hpb⟩
    · rw [hnone] at hab
      cases hab
    · have hinj : (a', b') = (a, b) := Option.some.inj (hab'.symm.trans hab)
      obtain ⟨rfl, rfl⟩ := Prod.mk.injEq .. ▸ hinj
      refine ⟨parseI32_digits_range (List.all_eq_true.mpr g2) hpa, ?_⟩
      rcases hpb with hpb | hpb
      · exact parseI32_digits_range (List.all_eq_true.mpr g2) hpb
      · exact parseI32_digits_range (List.all_eq_true.mpr g3) hpb

/-- C1 counterexample: `" 0:5-2"` parses successfully to a reference with an
empty book token, chapter `0` (violating `chapter >= 1`), and verse range
`(5, 2)` (violating `start <= end`). -/
theorem c1_counterexample :
    fromStr (" 0:5-2".toList) =
      ParseResult.ok { book := [], chapter := 0, verses := some (5, 2) } ∧
    ¬((1 : Int) ≤ 0) ∧ ¬((5 : Int) ≤ 2) := by decide

/-- C1 witness: the invariant instantiated at the parse of `"John 1:1"`. -/
theorem c1_parsed_reference_invariant_witness :
    fromStr ("John 1:1".toList) =
      ParseResult.ok ⟨"John".toList, 1, some (1, 1)⟩ ∧
    (trim ("John".toList) = "John".toList ∧
      ((0 : Int) ≤ 1 ∧ (1 : Int) < 2 ^ 31) ∧
      ∀ a b, (some ((1 : Int), (1 : Int)) = some (a, b)) →
        (0 ≤ a ∧ a < 2 ^ 31) ∧ (0 ≤ b ∧ b < 2 ^ 31)) :=
  ⟨by decide,
    c1_parsed_reference_invariant ("John 1:1".toList) ⟨"John".toList, 1, some (1, 1)⟩
      (by decide)⟩

/-! ## Claim C2 -/

set_option maxRecDepth 4000 in
/-- C2 (code bug): on the empty input string `Reference::from_str` panics —
the guard clause builds its error payload by slicing `s[..100]`, which is
out of bounds for the empty string — instead of returning
`Err(InvalidReference)` as the spec states.  Over-long input does return
the error, with the payload truncated to the first 100 bytes. -/
theorem c2_empty_input_panics :
    fromStr [] = ParseResult.panic ∧
    fromStr (List.replicate 101 'a') =
      ParseResult.error (DbError.invalidReference (List.replicate 100 'a')) := by decide

/-! ## Claim C10 -/

/-- C10 (corrected): while in the `Book` state the parser discards every
character that is neither alphabetic, whitespace, nor a digit, with no
state change; hence every character of the parsed book field beyond the
first is alphabetic or whitespace.  The first character is exempt: the
`Init` state appends it to the book buffer unconditionally. -/
theorem c10_book_state_discards (s : List Char) (r : Reference)
    (h : fromStr s = ParseResult.ok r) :
    (∀ x ∈ r.book.drop 1, (rsIsAlphabetic x || rsIsWhitespace x) = true) ∧
    ∀ (m : MState) (c : Char), m.st = PState.book →
      rsIsAlphabetic c = false → rsIsWhitespace c = false → rsIsNumeric c = false →
      step m c = m := by
  constructor
  · obtain ⟨hbook, _, _⟩ := fromStr_ok_shape h
    obtain ⟨_, _, _, _, g5⟩ := runMachine_good s
    intro x hx
    rw [hbook] at hx
    exact g5 x (trim_drop_one_subset _ hx)
  · intro m c hst ha hw hn
    obtain ⟨st, bp, cp, vf, vt⟩ := m
    have hst' : st = PState.book := hst
    subst hst'
    simp [step, ha, hw, hn]

/-- C10 counterexample: `".1"` parses successfully and its book field is
`"."`, a character that is neither alphabetic nor whitespace — the claim
that the parsed book field contains only letters and whitespace fails on
inputs whose first character is punctuation. -/
theorem c10_counterexample :
    fromStr (".1".toList) = ParseResult.ok { book := ['.'], chapter := 1, verses := none } ∧
    rsIsAlphabetic '.' = false ∧ rsIsWhitespace '.' = false := by decide

/-- C10 witness: the property instantiated at the spec's own example
`"jhn.1.1"`, whose book token parses to `"jhn"`. -/
theorem c10_book_state_discards_witness :
    fromStr ("jhn.1.1".toList) = ParseResult.ok ⟨"jhn".toList, 1, some (1, 1)⟩ ∧
    ((∀ x ∈ ("jhn".toList).drop 1, (rsIsAlphabetic x || rsIsWhitespace x) = true) ∧
      ∀ (m : MState) (c : Char), m.st = PState.book →
        rsIsAlphabetic c = false → rsIsWhitespace c = false → rsIsNumeric c = false →
        step m c = m) :=
  ⟨by decide,
    c10_book_state_discards ("jhn.1.1".toList) ⟨"jhn".toList, 1, some (1, 1)⟩ (by decide)⟩

/-! ## Claim C4 -/

/-- C4 counterexample: for the query `"a"` (with literal double quotes) the
expression sent to storage is the re-quoted cleaned text with the wildcard
star still appended, not the bare re-quoted text the claim describes. -/
theorem c4_counterexample :
    hadQuote ("\"a\"".toList) = true ∧
    ftsExpression ("\"a\"".toList) = some ("\"a\"*".toList) ∧
    ("\"a\"*".toList : List Char) ≠ '"' :: (cleanQuery ("\"a\"".toList) ++ ['"']) := by
  decide

/-- C4 (corrected): the trailing wildcard marker is appended to every
expression sent to storage (`format!("{}*", query)` runs unconditionally):
a query containing a double quote yields the cleaned text re-wrapped in
quotes followed by the wildcard; any other query yields the cleaned text
followed by the wildcard. -/
theorem c4_wildcard_always_appended (q e : List Char) (h : ftsExpression q = some e) :
    (hadQuote q = true → e = ('"' :: (cleanQuery q ++ ['"'])) ++ ['*']) ∧
    (hadQuote q = false → e = cleanQuery q ++ ['*']) := by
  simp only [ftsExpression] at h
  split at h
  · cases h
  · refine ⟨fun hq => ?_, fun hq => ?_⟩ <;> rw [hq] at h <;> simpa using h.symm

/-- C4 witness: the amended statement instantiated at the quoted query
`"like as a fire"`. -/
theorem c4_wildcard_always_appended_witness :
    ftsExpression ("\"like as a fire\"".toList) = some ("\"like as a fire\"*".toList) ∧
    ((hadQuote ("\"like as a fire\"".toList) = true →
        "\"like as a fire\"*".toList =
          ('"' :: (cleanQuery ("\"like as a fire\"".toList) ++ ['"'])) ++ ['*']) ∧
      (hadQuote ("\"like as a fire\"".toList) = false →
        "\"like as a fire\"*".toList = cleanQuery ("\"like as a fire\"".toList) ++ ['*'])) :=
  ⟨by decide, c4_wildcard_always_appended _ _ (by decide)⟩

/-! ## Claim C6 -/

/-- C6 (confirmed): when the sanitized query trims to nothing — all
characters that are not ASCII letters or spaces stripped, whitespace
trimmed — search sends no expression to storage and returns `Ok` with an
empty result list, for any matcher and any database. -/
theorem c6_empty_sanitized_query (m : List Char → VerseFTS → Bool) (db : Db) (q : List Char)
    (h : (trim (cleanQuery q)).isEmpty = true) :
    ftsExpression q = none ∧ searchQuery m db q = .ok [] := by
  have he : ftsExpression q = none := by
    simp only [ftsExpression]
    rw [if_pos h]
  refine ⟨he, ?_⟩
  unfold searchQuery
  rw [he]

/-- C6 witness: the spec's boundary case `"1 "` yields zero results. -/
theorem c6_empty_sanitized_query_witness :
    ((trim (cleanQuery ("1 ".toList))).isEmpty = true) ∧
    (ftsExpression ("1 ".toList) = none ∧
      searchQuery matchAll emptyDb ("1 ".toList) = .ok []) :=
  ⟨by decide, c6_empty_sanitized_query matchAll emptyDb ("1 ".toList) (by decide)⟩

/-! ## Claim C9 -/

theorem rankLe_trans :
    ∀ a b c : VerseFTS × Book, rankLe a b = true → rankLe b c = true → rankLe a c = true := by
  intro a b c hab hbc
  simp only [rankLe, decide_eq_true_eq] at hab hbc ⊢
  omega

theorem rankLe_total : ∀ a b : VerseFTS × Book, (rankLe a b || rankLe b a) = true := by
  intro a b
  simp only [rankLe, Bool.or_eq_true, decide_eq_true_eq]
  omega

/-- C9 (confirmed): every result sequence search returns holds at most
`SEARCH_RESULT_LIMIT = 15` pairs and is ordered by rank ascending. -/
theorem c9_search_limit_and_order (m : List Char → VerseFTS → Bool) (db : Db)
    (q : List Char) (res : List (VerseFTS × Book))
    (h : searchQuery m db q = .ok res) :
    res.length ≤ SEARCH_RESULT_LIMIT ∧
    List.Pairwise (fun a b => rankLe a b = true) res := by
  unfold searchQuery at h
  split at h
  · cases h
    exact ⟨by simp [SEARCH_RESULT_LIMIT], List.Pairwise.nil⟩
  · cases h
    constructor
    · rw [List.length_take]
      exact min_le_left _ _
    · exact List.Pairwise.sublist (List.take_sublist _ _)
        (List.sorted_mergeSort rankLe_trans rankLe_total _)

unseal List.merge List.mergeSort in
/-- C9 witness: the two matching rows of the small database come back
rank-ordered (rank `-5` before rank `-3`) and within the limit. -/
theorem c9_search_limit_and_order_witness :
    searchQuery matchAll johnDb ("fire".toList) =
      .ok [(⟨43, 1, 2, "The same was in the beginning with God".toList, -5⟩, johnBook),
           (⟨43, 1, 1, "In the beginning was the Word".toList, -3⟩, johnBook)] ∧
    ([(⟨43, 1, 2, "The same was in the beginning with God".toList, -5⟩, johnBook),
      (⟨43, 1, 1, "In the beginning was the Word".toList, -3⟩, johnBook)] :
        List (VerseFTS × Book)).length ≤ SEARCH_RESULT_LIMIT ∧
    List.Pairwise (fun a b => rankLe a b = true)
      [((⟨43, 1, 2, "The same was in the beginning with God".toList, -5⟩ : VerseFTS), johnBook),
       (⟨43, 1, 1, "In the beginning was the Word".toList, -3⟩, johnBook)] :=
  ⟨by decide,
    (c9_search_limit_and_order matchAll johnDb ("fire".toList) _ (by decide)).1,
    (c9_search_limit_and_order matchAll johnDb ("fire".toList) _ (by decide)).2⟩

/-! ## Claim C5 -/

theorem verseLe_trans :
    ∀ a b c : Verse, verseLe a b = true → verseLe b c = true → verseLe a c = true := by
  intro a b c hab hbc
  simp only [verseLe, Bool.or_eq_true, Bool.and_eq_true, decide_eq_true_eq, beq_iff_eq]
    at hab hbc ⊢
  omega

theorem verseLe_total : ∀ a b : Verse, (verseLe a b || verseLe b a) = true := by
  intro a b
  simp only [verseLe, Bool.or_eq_true, Bool.and_eq_true, decide_eq_true_eq, beq_iff_eq]
  omega

/-- C5 (confirmed): when the book token resolves, retrieval returns `Ok`
with the resolved book and exactly the stored verses of that book and
chapter (restricted to the requested verse range when present), ordered by
`(chapter, verse)` ascending — an empty sequence rather than an error when
nothing matches. -/
theorem c5_verses_query (db : Db) (ref : Reference) (fmt : VerseFormat)
    (bk : Book) (chs : List Int)
    (h : bookQuery db (lowerStr ref.book) = .ok (bk, chs)) :
    ∃ vs, versesQuery db ref fmt = .ok (bk, vs) ∧
      (∀ v, v ∈ vs ↔ v ∈ db.table fmt ∧
        (v.book == bk.id && v.chapter == ref.chapter && inVerseRange ref.verses v) = true) ∧
      List.Pairwise (fun a b => verseLe a b = true) vs ∧
      vs.Perm ((db.table fmt).filter fun v =>
        v.book == bk.id && v.chapter == ref.chapter && inVerseRange ref.verses v) := by
  refine ⟨((db.table fmt).filter fun v =>
      v.book == bk.id && v.chapter == ref.chapter && inVerseRange ref.verses v).mergeSort
        verseLe, ?_, ?_, ?_, ?_⟩
  · unfold versesQuery
    rw [h]
  · intro v
    rw [List.mem_mergeSort, List.mem_filter]
  · exact List.sorted_mergeSort verseLe_trans verseLe_total _
  · exact List.mergeSort_perm _ _

/-- C5 witness: retrieval of John 1:1-2 from the small database. -/
theorem c5_verses_query_witness :
    bookQuery johnDb (lowerStr ("John".toList)) =
      .ok (johnBook, (List.range 21).map fun i => (i : Int) + 1) ∧
    ∃ vs, versesQuery johnDb ⟨"John".toList, 1, some (1, 2)⟩ VerseFormat.plainText =
        .ok (johnBook, vs) ∧
      (∀ v, v ∈ vs ↔ v ∈ johnDb.table VerseFormat.plainText ∧
        (v.book == johnBook.id && v.chapter == (⟨"John".toList, 1, some (1, 2)⟩ :
          Reference).chapter &&
          inVerseRange (⟨"John".toList, 1, some (1, 2)⟩ : Reference).verses v) = true) ∧
      List.Pairwise (fun a b => verseLe a b = true) vs ∧
      vs.Perm ((johnDb.table VerseFormat.plainText).filter fun v =>
        v.book == johnBook.id && v.chapter == (⟨"John".toList, 1, some (1, 2)⟩ :
          Reference).chapter &&
          inVerseRange (⟨"John".toList, 1, some (1, 2)⟩ : Reference).verses v) :=
  ⟨by decide,
    c5_verses_query johnDb ⟨"John".toList, 1, some (1, 2)⟩ VerseFormat.plainText johnBook
      ((List.range 21).map fun i => (i : Int) + 1) (by decide)⟩

/-! ## Claim C3 -/

/-- C3 (confirmed): when the request carried a verse range and retrieval
returned at least one verse, `VersesPayload::new` narrows the payload's
reference range to the requested start through the verse number of the
last returned verse. -/
theorem c3_payload_narrows (bk : Book) (vs : List Verse) (reference : Reference)
    (a b : Int) (last : Verse)
    (hreq : reference.verses = some (a, b)) (hlast : vs.getLast? = some last) :
    (VersesPayload.new (bk, vs) reference).reference.verses = some (a, last.verse) := by
  simp [VersesPayload.new, hreq, hlast]

set_option maxRecDepth 20000 in
unseal List.merge List.mergeSort in
/-- C3 witness: `"Psalms 119:1-999"` against a 176-verse chapter retrieves
verses 1 through 176 and the payload reports the range `(1, 176)`, not
`(1, 999)`. -/
theorem c3_payload_narrows_witness :
    fromStr ("Psalms 119:1-999".toList) =
      ParseResult.ok ⟨"Psalms".toList, 119, some (1, 999)⟩ ∧
    versesQuery psalmsDb ⟨"Psalms".toList, 119, some (1, 999)⟩ VerseFormat.plainText =
      .ok (psalmsBook, psalm119Verses) ∧
    psalm119Verses.getLast? = some ⟨176, 19, 119, 176, []⟩ ∧
    (VersesPayload.new (psalmsBook, psalm119Verses)
        ⟨"Psalms".toList, 119, some (1, 999)⟩).reference.verses = some (1, 176) :=
  ⟨by decide, by decide, by decide,
    c3_payload_narrows psalmsBook psalm119Verses ⟨"Psalms".toList, 119, some (1, 999)⟩
      1 999 ⟨176, 19, 119, 176, []⟩ rfl (by decide)⟩

/-! ## Claim C7 -/

/-- C7 (confirmed): the JSON search endpoint never surfaces
`InvalidReference` or `BookNotFound` as errors: a query whose parse fails
with an error goes to full-text search (whose result is returned as
`200 OK`), a query that parses but whose book token resolves to no book
yields `200 OK` with an empty result set, and no query at all produces the
`400 InvalidReference` response. -/
theorem c7_search_downgrades_reference_errors
    (m : List Char → VerseFTS → Bool) (db : Db) (q : List Char) :
    (∀ e, fromStr q = ParseResult.error e →
      ∃ results, searchQuery m db q = .ok results ∧
        searchEndpoint m db q = ApiResponse.okJson (fromVersesFts results)) ∧
    (∀ r : Reference, fromStr q = ParseResult.ok r →
      bookQuery db (lowerStr r.book) = .error (DbError.bookNotFound (lowerStr r.book)) →
      searchEndpoint m db q = ApiResponse.okJson []) ∧
    (∀ t, searchEndpoint m db q ≠ ApiResponse.badRequest t) := by
  refine ⟨?_, ?_, ?_⟩
  · intro e he
    cases hs : searchQuery m db q with
    | error e2 =>
      exfalso
      unfold searchQuery at hs
      split at hs <;> cases hs
    | ok results =>
      refine ⟨results, rfl, ?_⟩
      simp [searchEndpoint, he, hs]
  · intro r hr hbook
    have hv : versesQuery db r .plainText =
        .error (DbError.bookNotFound (lowerStr r.book)) := by
      unfold versesQuery
      rw [hbook]
    simp [searchEndpoint, hr, hv, fromBlockingDbError, errorResponse]
  · intro t
    simp only [searchEndpoint]
    cases hf : fromStr q with
    | panic => simp
    | ok r =>
      cases hv : versesQuery db r .plainText with
      | ok res => simp [hv]
      | error e => cases e <;> simp [hv, fromBlockingDbError, errorResponse]
    | error e =>
      cases hs : searchQuery m db q with
      | ok res => simp [hs]
      | error e2 => cases e2 <;> simp [hs, fromBlockingDbError, errorResponse]

/-- C7 witness: `"hello"` fails to parse and is answered by full-text
search; `"zzz 1"` parses but its book resolves to no book and is answered
by `200 OK` with an empty result set. -/
theorem c7_search_downgrades_reference_errors_witness :
    (fromStr ("hello".toList) =
      ParseResult.error (DbError.invalidReference ("hello".toList))) ∧
    (∃ results, searchQuery matchNone johnDb ("hello".toList) = .ok results ∧
      searchEndpoint matchNone johnDb ("hello".toList) =
        ApiResponse.okJson (fromVersesFts results)) ∧
    (fromStr ("zzz 1".toList) = ParseResult.ok ⟨"zzz".toList, 1, none⟩) ∧
    (searchEndpoint matchNone johnDb ("zzz 1".toList) = ApiResponse.okJson []) :=
  ⟨by decide,
    (c7_search_downgrades_reference_errors matchNone johnDb ("hello".toList)).1
      (DbError.invalidReference ("hello".toList)) (by decide),
    by decide,
    (c7_search_downgrades_reference_errors matchNone johnDb ("zzz 1".toList)).2.1
      ⟨"zzz".toList, 1, none⟩ (by decide) (by decide)⟩

/-! ## Claim C8: groundwork -/

theorem alpha_or_space_ws {x : Char} (h : rsIsAlphabetic x = true ∨ x = ' ') :
    (rsIsAlphabetic x || rsIsWhitespace x) = true := by
  rcases h with h | rfl
  · simp [h]
  · decide

theorem alpha_or_space_not_numeric {x : Char} (h : rsIsAlphabetic x = true ∨ x = ' ') :
    rsIsNumeric x = false := by
  rcases h with h | rfl
  · simp only [rsIsAlphabetic, Bool.or_eq_true, Bool.and_eq_true, decide_eq_true_eq] at h
    simp only [rsIsNumeric, Bool.and_eq_true, decide_eq_true_eq, Bool.and_eq_false_iff,
      decide_eq_false_iff_not, not_le]
    omega
  · decide

theorem alpha_or_digit_not_ws {x : Char} (h : rsIsAlphabetic x = true ∨ rsIsNumeric x = true) :
    rsIsWhitespace x = false := by
  have hn : 65 ≤ x.toNat ∧ x.toNat ≤ 90 ∨ 97 ≤ x.toNat ∧ x.toNat ≤ 122 ∨
      48 ≤ x.toNat ∧ x.toNat ≤ 57 := by
    rcases h with h | h
    · simp only [rsIsAlphabetic, Bool.or_eq_true, Bool.and_eq_true, decide_eq_true_eq] at h
      tauto
    · simp only [rsIsNumeric, Bool.and_eq_true, decide_eq_true_eq] at h
      tauto
  simp only [rsIsWhitespace, Bool.or_eq_false_iff, decide_eq_false_iff_not]
  omega

theorem digit_not_ws {x : Char} (h : rsIsNumeric x = true) : rsIsWhitespace x = false :=
  alpha_or_digit_not_ws (Or.inr h)

theorem digitChar_toNat {d : Nat} (h : d < 10) : (digitChar d).toNat = 48 + d := by
  interval_cases d <;> decide

theorem digitChar_numeric {d : Nat} (h : d < 10) : rsIsNumeric (digitChar d) = true := by
  interval_cases d <;> decide

theorem natToChars_ne_nil (n : Nat) : natToChars n ≠ [] := by
  rw [natToChars_eq]
  split
  · simp
  · simp

theorem natToChars_all_digit (n : Nat) : ∀ c ∈ natToChars n, rsIsNumeric c = true := by
  induction n using Nat.strong_induction_on with
  | _ n ih =>
    rw [natToChars_eq]
    split
    · rename_i h
      intro c hc
      rw [List.mem_singleton.mp hc]
      exact digitChar_numeric h
    · rename_i h
      intro c hc
      rcases List.mem_append.mp hc with hc | hc
      · exact ih (n / 10) (Nat.div_lt_self (by omega) (by omega)) c hc
      · rw [List.mem_singleton.mp hc]
        exact digitChar_numeric (Nat.mod_lt _ (by omega))

theorem digitsVal_append (xs : List Char) (c : Char) :
    digitsVal (xs ++ [c]) = digitsVal xs * 10 + (c.toNat - 48) := by
  unfold digitsVal
  rw [List.foldl_append]
  rfl

theorem digitsVal_natToChars (n : Nat) : digitsVal (natToChars n) = n := by
  induction n using Nat.strong_induction_on with
  | _ n ih =>
    rw [natToChars_eq]
    split
    · rename_i h
      unfold digitsVal
      simp only [List.foldl_cons, List.foldl_nil]
      rw [digitChar_toNat h]
      omega
    · rename_i h
      rw [digitsVal_append, ih (n / 10) (Nat.div_lt_self (by omega) (by omega)),
        digitChar_toNat (Nat.mod_lt _ (by omega))]
      omega

theorem parseI32_natToChars {n : Nat} (h : n < 2 ^ 31) :
    parseI32 (natToChars n) = some (n : Int) := by
  rcases hnc : natToChars n with _ | ⟨c, rest⟩
  · exact absurd hnc (natToChars_ne_nil n)
  · have hall : ∀ x ∈ c :: rest, rsIsNumeric x = true := by
      rw [← hnc]
      exact natToChars_all_digit n
    have hval : digitsVal (c :: rest) = n := by
      rw [← hnc]
      exact digitsVal_natToChars n
    simp only [parseI32]
    rw [splitSign_digits (hall c (by simp))]
    rw [if_neg (by simp)]
    rw [if_pos (List.all_eq_true.mpr hall)]
    simp only [Bool.false_eq_true, if_false]
    rw [if_pos (by constructor <;> [omega; (rw [hval]; omega)])]
    rw [hval]

theorem i32ToChars_of_nonneg {n : Int} (h : 0 ≤ n) : i32ToChars n = natToChars n.toNat := by
  rw [i32ToChars, if_neg (by omega)]

theorem parseI32_i32ToChars {ch : Int} (h0 : 0 ≤ ch) (h31 : ch < 2 ^ 31) :
    parseI32 (i32ToChars ch) = some ch := by
  rw [i32ToChars_of_nonneg h0, parseI32_natToChars (by omega)]
  congr 1
  omega

theorem run_book_seg (cs : List Char) :
    ∀ m : MState, m.st = PState.book →
    (∀ c ∈ cs, rsIsAlphabetic c = true ∨ c = ' ') →
    List.foldl step m cs = { m with bookPart := m.bookPart ++ cs } := by
  induction cs with
  | nil => intro m _ _; simp
  | cons c cs ih =>
    intro m hst hall
    obtain ⟨st, bp, cp, vf, vt⟩ := m
    have hst' : st = PState.book := hst
    subst hst'
    have hc := hall c (by simp)
    have hstep : step ⟨PState.book, bp, cp, vf, vt⟩ c =
        ⟨PState.book, bp ++ [c], cp, vf, vt⟩ := by
      simp [step, alpha_or_space_not_numeric hc, alpha_or_space_ws hc]
    rw [List.foldl_cons, hstep, ih _ rfl (fun x hx => hall x (by simp [hx]))]
    simp

theorem run_digits_chapter (cs : List Char) :
    ∀ m : MState, m.st = PState.chapter →
    (∀ c ∈ cs, rsIsNumeric c = true) →
    List.foldl step m cs = { m with chapterPart := m.chapterPart ++ cs } := by
  induction cs with
  | nil => intro m _ _; simp
  | cons c cs ih =>
    intro m hst hall
    obtain ⟨st, bp, cp, vf, vt⟩ := m
    have hst' : st = PState.chapter := hst
    subst hst'
    have hc := hall c (by simp)
    have hstep : step ⟨PState.chapter, bp, cp, vf, vt⟩ c =
        ⟨PState.chapter, bp, cp ++ [c], vf, vt⟩ := by
      simp [step, hc]
    rw [List.foldl_cons, hstep, ih _ rfl (fun x hx => hall x (by simp [hx]))]
    simp

theorem run_digits_verseFrom (cs : List Char) :
    ∀ m : MState, m.st = PState.verseFrom →
    (∀ c ∈ cs, rsIsNumeric c = true) →
    List.foldl step m cs = { m with verseFromPart := m.verseFromPart ++ cs } := by
  induction cs with
  | nil => intro m _ _; simp
  | cons c cs ih =>
    intro m hst hall
    obtain ⟨st, bp, cp, vf, vt⟩ := m
    have hst' : st = PState.verseFrom := hst
    subst hst'
    have hc := hall c (by simp)
    have hstep : step ⟨PState.verseFrom, bp, cp, vf, vt⟩ c =
        ⟨PState.verseFrom, bp, cp, vf ++ [c], vt⟩ := by
      simp [step, rsIsNumeric_ne_dash hc, hc]
    rw [List.foldl_cons, hstep, ih _ rfl (fun x hx => hall x (by simp [hx]))]
    simp

theorem run_digits_verseTo (cs : List Char) :
    ∀ m : MState, m.st = PState.verseTo →
    (∀ c ∈ cs, rsIsNumeric c = true) →
    List.foldl step m cs = { m with verseToPart := m.verseToPart ++ cs } := by
  induction cs with
  | nil => intro m _ _; simp
  | cons c cs ih =>
    intro m hst hall
    obtain ⟨st, bp, cp, vf, vt⟩ := m
    have hst' : st = PState.verseTo := hst
    subst hst'
    have hc := hall c (by simp)
    have hstep : step ⟨PState.verseTo, bp, cp, vf, vt⟩ c =
        ⟨PState.verseTo, bp, cp, vf, vt ++ [c]⟩ := by
      simp [step, hc]
    rw [List.foldl_cons, hstep, ih _ rfl (fun x hx => hall x (by simp [hx]))]
    simp

theorem step_book_digit {m : MState} {c : Char} (hst : m.st = PState.book)
    (hc : rsIsNumeric c = true) :
    step m c = { m with st := PState.chapter, chapterPart := m.chapterPart ++ [c] } := by
  obtain ⟨st, bp, cp, vf, vt⟩ := m
  have hst' : st = PState.book := hst
  subst hst'
  simp [step, hc]

theorem step_chapter_colon {m : MState} (hst : m.st = PState.chapter) :
    step m ':' = { m with st := PState.verseFrom } := by
  obtain ⟨st, bp, cp, vf, vt⟩ := m
  have hst' : st = PState.chapter := hst
  subst hst'
  simp [step, show rsIsNumeric ':' = false from by decide]

theorem step_verseFrom_dash {m : MState} (hst : m.st = PState.verseFrom) :
    step m '-' = { m with st := PState.verseTo } := by
  obtain ⟨st, bp, cp, vf, vt⟩ := m
  have hst' : st = PState.verseFrom := hst
  subst hst'
  simp [step]

theorem isEmpty_false_of_ne_nil {α : Type} {l : List α} (h : l ≠ []) :
    l.isEmpty = false := by
  cases l with
  | nil => exact absurd rfl h
  | cons x xs => rfl

/-- Running the machine over book characters and the separating space:
ends in the `Book` state with the book buffer holding them all. -/
theorem runMachine_book_chapter (c0 : Char) (bt cs : List Char)
    (htailM : ∀ c ∈ bt, rsIsAlphabetic c = true ∨ c = ' ') :
    runMachine ((c0 :: bt) ++ ' ' :: cs) =
      List.foldl step ⟨PState.book, (c0 :: bt) ++ [' '], [], [], []⟩ cs := by
  unfold runMachine
  rw [show (c0 :: bt) ++ ' ' :: cs = ([c0] ++ (bt ++ ([' '] ++ cs))) from by simp]
  rw [List.foldl_append, List.foldl_append, List.foldl_append]
  rw [show List.foldl step initState [c0] = ⟨PState.book, [c0], [], [], []⟩ from rfl]
  rw [run_book_seg bt _ rfl htailM]
  rw [run_book_seg [' '] _ rfl
    (by intro c hc; rw [List.mem_singleton.mp hc]; exact Or.inr rfl)]
  rfl

/-- Running the machine over the chapter digits from the `Book` state. -/
theorem run_chapter_digits_then (d : Char) (ds rest : List Char) (bp : List Char)
    (hd : rsIsNumeric d = true) (hds : ∀ c ∈ ds, rsIsNumeric c = true) :
    List.foldl step ⟨PState.book, bp, [], [], []⟩ ((d :: ds) ++ rest) =
      List.foldl step ⟨PState.chapter, bp, d :: ds, [], []⟩ rest := by
  rw [show ((d :: ds) ++ rest : List Char) = [d] ++ (ds ++ rest) from by simp]
  rw [List.foldl_append, List.foldl_append]
  rw [show List.foldl step ⟨PState.book, bp, [], [], []⟩ [d] =
    step ⟨PState.book, bp, [], [], []⟩ d from rfl]
  rw [step_book_digit rfl hd]
  rw [run_digits_chapter ds _ rfl hds]
  rfl

/-- Running the machine over the `:` separator and the verse-from digits. -/
theorem run_colon_verseFrom (bp cp A rest : List Char)
    (hA : ∀ c ∈ A, rsIsNumeric c = true) :
    List.foldl step ⟨PState.chapter, bp, cp, [], []⟩ ((':' :: A) ++ rest) =
      List.foldl step ⟨PState.verseFrom, bp, cp, A, []⟩ rest := by
  rw [show ((':' :: A) ++ rest : List Char) = [':'] ++ (A ++ rest) from by simp]
  rw [List.foldl_append, List.foldl_append]
  rw [show List.foldl step ⟨PState.chapter, bp, cp, [], []⟩ [':'] =
    step ⟨PState.chapter, bp, cp, [], []⟩ ':' from rfl]
  rw [step_chapter_colon rfl]
  rw [run_digits_verseFrom A _ rfl hA]
  rfl

/-- Running the machine over the `-` separator and the verse-to digits. -/
theorem run_dash_verseTo (bp cp A B : List Char)
    (hB : ∀ c ∈ B, rsIsNumeric c = true) :
    List.foldl step ⟨PState.verseFrom, bp, cp, A, []⟩ ('-' :: B) =
      ⟨PState.verseTo, bp, cp, A, B⟩ := by
  rw [show ('-' :: B : List Char) = ['-'] ++ B from rfl]
  rw [List.foldl_append]
  rw [show List.foldl step ⟨PState.verseFrom, bp, cp, A, []⟩ ['-'] =
    step ⟨PState.verseFrom, bp, cp, A, []⟩ '-' from rfl]
  rw [step_verseFrom_dash rfl]
  rw [run_digits_verseTo B _ rfl hB]
  rfl

/-- Evaluation of `from_str`'s finalization, given the machine's final
buffers and a successful chapter parse. -/
theorem fromStr_eval (s : List Char) (st : PState) (bp cp vfp vtp : List Char) (chv : Int)
    (hlen : byteLen s ≤ MAX_REFERENCE_SIZE) (hne : s ≠ [])
    (hrun : runMachine s = ⟨st, bp, cp, vfp, vtp⟩)
    (hcp : parseI32 cp = some chv) :
    fromStr s =
      if vfp.isEmpty then ParseResult.ok ⟨trim bp, chv, none⟩
      else
        match parseI32 vfp with
        | none => ParseResult.error (DbError.invalidReference vfp)
        | some a =>
          if vtp.isEmpty then ParseResult.ok ⟨trim bp, chv, some (a, a)⟩
          else
            match parseI32 vtp with
            | none => ParseResult.error (DbError.invalidReference vtp)
            | some b => ParseResult.ok ⟨trim bp, chv, some (a, b)⟩ := by
  have hg : (decide (byteLen s > MAX_REFERENCE_SIZE) || s.isEmpty) = false := by
    rw [Bool.or_eq_false_iff]
    exact ⟨decide_eq_false (by omega), isEmpty_false_of_ne_nil hne⟩
  simp only [fromStr]
  rw [if_neg (by simp [hg])]
  rw [hrun]
  simp only [hcp]
  by_cases hvf : vfp.isEmpty = true
  · simp [hvf]
  · cases hpf : parseI32 vfp with
    | none => simp [hvf, hpf]
    | some a =>
      by_cases hvt : vtp.isEmpty = true
      · simp [hvf, hvt, hpf]
      · simp [hvf, hvt, hpf]

/-- C8 (confirmed): parsing the canonical rendering of a canonical
reference recovers the reference exactly, hence formatting the parse of a
canonical string reproduces the string: `format(parse(s)) = s`. -/
theorem c8_canonical_roundtrip (r : Reference) (h : IsCanonical r) :
    fromStr (fmtReference r) = ParseResult.ok r ∧
    ∀ q, fromStr (fmtReference r) = ParseResult.ok q → fmtReference q = fmtReference r := by
  have main : fromStr (fmtReference r) = ParseResult.ok r := by
    obtain ⟨book, chapter, verses⟩ := r
    obtain ⟨hne, hhead, htail, hlast, hch, hvr, hlen⟩ := h
    dsimp only at hne hhead htail hlast hch hvr
    obtain ⟨hch1, hch2⟩ := hch
    cases book with
    | nil => exact absurd rfl hne
    | cons c0 bt =>
      have hheadP : rsIsAlphabetic c0 = true ∨ rsIsNumeric c0 = true := hhead c0 (by simp)
      have htailP : ∀ c ∈ bt, rsIsAlphabetic c = true ∨ c = ' ' := by
        intro c hc
        exact htail c (by simpa using hc)
      have hheadws : ∀ x ∈ (c0 :: bt).head?, rsIsWhitespace x = false := by
        intro x hx
        simp only [List.head?_cons, Option.mem_def, Option.some.injEq] at hx
        rw [← hx]
        exact alpha_or_digit_not_ws hheadP
      have hlastws : ∀ x ∈ (c0 :: bt).getLast?, rsIsWhitespace x = false :=
        fun x hx => alpha_or_digit_not_ws (hlast x hx)
      have htrim : trim (c0 :: (bt ++ [' '])) = c0 :: bt := by
        have h0 : trim ((c0 :: bt) ++ [' ']) = c0 :: bt :=
          trim_append_space (by simp) hheadws hlastws
        simpa using h0
      have hchnn : (0 : Int) ≤ chapter := by omega
      have hCparse : parseI32 (natToChars chapter.toNat) = some chapter := by
        have hp := parseI32_natToChars (show chapter.toNat < 2 ^ 31 by omega)
        rwa [Int.toNat_of_nonneg hchnn] at hp
      obtain ⟨d, ds, hC⟩ : ∃ d ds, natToChars chapter.toNat = d :: ds := by
        cases hx : natToChars chapter.toNat with
        | nil => exact absurd hx (natToChars_ne_nil _)
        | cons d ds => exact ⟨d, ds, rfl⟩
      have hCd : rsIsNumeric d = true := natToChars_all_digit _ d (by rw [hC]; simp)
      have hCds : ∀ c ∈ ds, rsIsNumeric c = true := fun c hc =>
        natToChars_all_digit _ c (by rw [hC]; simp [hc])
      cases verses with
      | none =>
        have hfmt : fmtReference ⟨c0 :: bt, chapter, none⟩ =
            (c0 :: bt) ++ ' ' :: natToChars chapter.toNat := by
          simp [fmtReference, i32ToChars_of_nonneg hchnn]
        have hrun : runMachine ((c0 :: bt) ++ ' ' :: natToChars chapter.toNat) =
            ⟨PState.chapter, (c0 :: bt) ++ [' '], natToChars chapter.toNat, [], []⟩ := by
          rw [runMachine_book_chapter c0 bt _ htailP, hC]
          rw [show (d :: ds : List Char) = (d :: ds) ++ [] from by simp]
          rw [run_chapter_digits_then d ds [] _ hCd hCds]
          simp
        rw [hfmt]
        rw [fromStr_eval _ PState.chapter ((c0 :: bt) ++ [' ']) (natToChars chapter.toNat)
          [] [] chapter (by rw [← hfmt]; exact hlen) (by simp) hrun hCparse]
        simp [htrim]
      | some p =>
        obtain ⟨va, vb⟩ := p
        have hvr' : 1 ≤ va ∧ va ≤ vb ∧ vb < 2 ^ 31 := hvr
        obtain ⟨hva1, hvab, hvb31⟩ := hvr'
        have hva0 : (0 : Int) ≤ va := by omega
        have hvb0 : (0 : Int) ≤ vb := by omega
        have hAparse : parseI32 (natToChars va.toNat) = some va := by
          have hp := parseI32_natToChars (show va.toNat < 2 ^ 31 by omega)
          rwa [Int.toNat_of_nonneg hva0] at hp
        have hAall : ∀ c ∈ natToChars va.toNat, rsIsNumeric c = true :=
          natToChars_all_digit _
        have hAne : (natToChars va.toNat).isEmpty = false :=
          isEmpty_false_of_ne_nil (natToChars_ne_nil _)
        by_cases heq : va = vb
        · subst heq
          have hfmt : fmtReference ⟨c0 :: bt, chapter, some (va, va)⟩ =
              (c0 :: bt) ++ ' ' ::
                (natToChars chapter.toNat ++ ':' :: natToChars va.toNat) := by
            simp [fmtReference, i32ToChars_of_nonneg hchnn, i32ToChars_of_nonneg hva0,
              List.append_assoc]
          have hrun : runMachine ((c0 :: bt) ++ ' ' ::
              (natToChars chapter.toNat ++ ':' :: natToChars va.toNat)) =
              ⟨PState.verseFrom, (c0 :: bt) ++ [' '], natToChars chapter.toNat,
                natToChars va.toNat, []⟩ := by
            rw [runMachine_book_chapter c0 bt _ htailP, hC]
            rw [run_chapter_digits_then d ds _ _ hCd hCds]
            rw [show (':' :: natToChars va.toNat : List Char) =
              (':' :: natToChars va.toNat) ++ [] from by simp]
            rw [run_colon_verseFrom _ _ (natToChars va.toNat) [] hAall]
            rfl
          rw [hfmt]
          rw [fromStr_eval _ PState.verseFrom ((c0 :: bt) ++ [' '])
            (natToChars chapter.toNat) (natToChars va.toNat) [] chapter
            (by rw [← hfmt]; exact hlen) (by simp) hrun hCparse]
          simp [hAne, hAparse, htrim]
        · have hBparse : parseI32 (natToChars vb.toNat) = some vb := by
            have hp := parseI32_natToChars (show vb.toNat < 2 ^ 31 by omega)
            rwa [Int.toNat_of_nonneg hvb0] at hp
          have hBall : ∀ c ∈ natToChars vb.toNat, rsIsNumeric c = true :=
            natToChars_all_digit _
          have hBne : (natToChars vb.toNat).isEmpty = false :=
            isEmpty_false_of_ne_nil (natToChars_ne_nil _)
          have hfmt : fmtReference ⟨c0 :: bt, chapter, some (va, vb)⟩ =
              (c0 :: bt) ++ ' ' :: (natToChars chapter.toNat ++
                ':' :: (natToChars va.toNat ++ '-' :: natToChars vb.toNat)) := by
            simp [fmtReference, heq, i32ToChars_of_nonneg hchnn,
              i32ToChars_of_nonneg hva0, i32ToChars_of_nonneg hvb0, List.append_assoc]
          have hrun : runMachine ((c0 :: bt) ++ ' ' :: (natToChars chapter.toNat ++
              ':' :: (natToChars va.toNat ++ '-' :: natToChars vb.toNat))) =
              ⟨PState.verseTo, (c0 :: bt) ++ [' '], natToChars chapter.toNat,
                natToChars va.toNat, natToChars vb.toNat⟩ := by
            rw [runMachine_book_chapter c0 bt _ htailP, hC]
            rw [run_chapter_digits_then d ds _ _ hCd hCds]
            rw [show (':' :: (natToChars va.toNat ++ '-' :: natToChars vb.toNat) :
                List Char) =
              (':' :: natToChars va.toNat) ++ ('-' :: natToChars vb.toNat) from by simp]
            rw [run_colon_verseFrom _ _ (natToChars va.toNat) _ hAall]
            rw [run_dash_verseTo _ _ (natToChars va.toNat) (natToChars vb.toNat) hBall]
          rw [hfmt]
          rw [fromStr_eval _ PState.verseTo ((c0 :: bt) ++ [' '])
            (natToChars chapter.toNat) (natToChars va.toNat) (natToChars vb.toNat)
            chapter (by rw [← hfmt]; exact hlen) (by simp) hrun hCparse]
          simp [hAne, hBne, hAparse, hBparse, htrim]
  refine ⟨main, fun q hq => ?_⟩
  rw [main] at hq
  cases hq
  rfl

/-- C8 witness: the property instantiated at `"1 Timothy 3:16-18"`. -/
theorem c8_canonical_roundtrip_witness :
    IsCanonical ⟨"1 Timothy".toList, 3, some (16, 18)⟩ ∧
    (fromStr (fmtReference ⟨"1 Timothy".toList, 3, some (16, 18)⟩) =
        ParseResult.ok ⟨"1 Timothy".toList, 3, some (16, 18)⟩ ∧
      ∀ q, fromStr (fmtReference ⟨"1 Timothy".toList, 3, some (16, 18)⟩) =
          ParseResult.ok q →
        fmtReference q = fmtReference ⟨"1 Timothy".toList, 3, some (16, 18)⟩) :=
  ⟨by unfold IsCanonical; decide,
    c8_canonical_roundtrip ⟨"1 Timothy".toList, 3, some (16, 18)⟩
      (by unfold IsCanonical; decide)⟩

end Biblers
